import Mathlib

/-!
Verification of the pandas-ta indicator subset (cmo, pgo, smi, fwma, t3,
vidya, dpo, pvi) against its natural-language specification.

A pandas `Series` of floats is embedded as a `List (Option ℚ)`: `none`
models NaN (missing / not-a-number), `some x` a finite value.  Positional
indexing out of range also yields `none`, matching pandas' convention that
a shifted-out-of-range access produces NaN.  Arithmetic on entries
propagates `none` the way IEEE NaN propagates through `+ - * /`; division
by zero yields `none` (in every place the code divides, a zero denominator
forces a zero numerator, so the float result would be NaN = 0/0, never an
infinity).
-/

abbrev Series := List (Option ℚ)

/-- Positional access: entry `i`, or `none` when `i` is out of range. -/
def sval (s : Series) (i : ℕ) : Option ℚ := s.getD i none

/-- NaN-propagating addition of entries. -/
def oadd : Option ℚ → Option ℚ → Option ℚ
  | some x, some y => some (x + y)
  | _, _ => none

/-- NaN-propagating subtraction of entries. -/
def osub : Option ℚ → Option ℚ → Option ℚ
  | some x, some y => some (x - y)
  | _, _ => none

/-- NaN-propagating multiplication of entries. -/
def omul : Option ℚ → Option ℚ → Option ℚ
  | some x, some y => some (x * y)
  | _, _ => none

/-- NaN-propagating division of entries; a zero denominator gives NaN
(the code only ever divides zero by zero, see the module comment). -/
def odiv : Option ℚ → Option ℚ → Option ℚ
  | some x, some y => if y = 0 then none else some (x / y)
  | _, _ => none

/-- Absolute value of an entry (`Series.abs`); NaN stays NaN. -/
def oabs (x : Option ℚ) : Option ℚ := x.map (fun v => |v|)

/-- Elementwise combination of two aligned series (`zipWith`). -/
def szip (f : Option ℚ → Option ℚ → Option ℚ) (s t : Series) : Series :=
  List.zipWith f s t

/-- Multiply every entry of a series by a scalar. -/
def smulScalar (c : ℚ) (s : Series) : Series :=
  s.map (fun x => x.map (fun v => c * v))

/-- pandas `Series.diff(d)`: `out[i] = s[i] - s[i-d]`, NaN for `i < d`. -/
def seriesDiff (d : ℕ) (s : Series) : Series :=
  (List.range s.length).map fun i =>
    if i < d then none else osub (sval s i) (sval s (i - d))

/-- pandas `Series.clip(lower=0)`: negative entries become 0, NaN stays. -/
def clipLower0 (s : Series) : Series :=
  s.map (Option.map (fun x => max x 0))

/-- pandas `Series.clip(upper=0).abs()`: positive entries become 0, then
absolute value; NaN stays. -/
def clipUpper0Abs (s : Series) : Series :=
  s.map (Option.map (fun x => |min x 0|))

/-- Sum of the trailing window of length `n` ending at `i`; `none` when the
window is incomplete or holds a NaN (pandas rolling with
`min_periods = n`). -/
def windowSum (s : Series) (n i : ℕ) : Option ℚ :=
  ((List.range n).map (fun j => sval s (i - j))).foldr oadd (some 0)

/-- pandas `Series.rolling(n).sum()`. -/
def rollingSum (n : ℕ) (s : Series) : Series :=
  (List.range s.length).map fun i =>
    if i + 1 < n then none else windowSum s n i

/-- pandas `Series.shift(k)`: `out[i] = s[i-k]` when `i-k` is in range,
`none` otherwise (vacated positions are null; values moved past either
end are dropped). -/
def shiftSeries (k : ℤ) (s : Series) : Series :=
  (List.range s.length).map fun (i : ℕ) =>
    if 0 ≤ (i : ℤ) - k ∧ (i : ℤ) - k < (s.length : ℤ) then
      sval s ((i : ℤ) - k).toNat
    else none

/-- pandas `Series.replace(\x7b0: nan\x7d)` as used by `vidya`: every entry
that is exactly 0 becomes NaN. -/
def replaceZeroNan (s : Series) : Series :=
  s.map (fun x => if x = some 0 then none else x)

/-- pandas `Series.fillna(c)` for a constant `c` (no-op when no constant
was requested). -/
def fillConst (c : Option ℚ) (s : Series) : Series :=
  match c with
  | none => s
  | some v => s.map (fun x => some (x.getD v))

/-- The `_cmo` patch of `pandas_ta/overlap/vidya.py`: momentum `diff(d)`,
positive and negative parts, rolling sums over window `n`, ratio of their
difference to their sum. -/
def cmoPatch (source : Series) (n d : ℕ) : Series :=
  let mom := seriesDiff d source
  let positive := clipLower0 mom
  let negative := clipUpper0Abs mom
  let posSum := rollingSum n positive
  let negSum := rollingSum n negative
  (List.range source.length).map fun i =>
    odiv (osub (sval posSum i) (sval negSum i))
         (oadd (sval posSum i) (sval negSum i))

/-- Value written into cell `i` by the `vidya` scan loop: cells below the
window length keep the initial fill `0`; from `length` on,
`alpha * abs_cmo[i] * close[i] + prev * (1 - alpha * abs_cmo[i])`. -/
def vidyaVal (close ac : Series) (n : ℕ) (alpha : ℚ) : ℕ → Option ℚ
  | 0 => some 0
  | i + 1 =>
    if i + 1 < n then some 0
    else
      oadd (omul (omul (some alpha) (sval ac (i + 1))) (sval close (i + 1)))
           (omul (vidyaVal close ac n alpha i)
                 (osub (some 1) (omul (some alpha) (sval ac (i + 1)))))

/-- The `vidya` series right after the scan loop (before the 0 → NaN
replacement): `alpha = 2/(length+1)`, `abs_cmo = _cmo(close,n,d).abs()`. -/
def vidyaScan (close : Series) (n d : ℕ) : Series :=
  let alpha : ℚ := 2 / (n + 1)
  let ac := (cmoPatch close n d).map oabs
  (List.range close.length).map (vidyaVal close ac n alpha)

/-- The `vidya` result before offset/fill post-processing: the scan with
every exact 0 replaced by NaN. -/
def vidyaCore (close : Series) (n d : ℕ) : Series :=
  replaceZeroNan (vidyaScan close n d)

theorem sval_range_map (f : ℕ → Option ℚ) (m i : ℕ) (h : i < m) :
    sval ((List.range m).map f) i = f i := by
  simp [sval, List.getD, List.getElem?_map, List.getElem?_range h]

theorem sval_oob (s : Series) (i : ℕ) (h : s.length ≤ i) : sval s i = none := by
  simp [sval, List.getD, List.getElem?_eq_none h]

theorem sval_map (g : Option ℚ → Option ℚ) (s : Series) (i : ℕ)
    (h : i < s.length) : sval (s.map g) i = g (sval s i) := by
  rcases List.getElem?_eq_some.mpr ⟨h, rfl⟩ with hg
  simp [sval, List.getD, List.getElem?_map, List.getElem?_eq_getElem h]

theorem length_range_map (f : ℕ → Option ℚ) (m : ℕ) :
    ((List.range m).map f).length = m := by simp

theorem vidyaScan_length (close : Series) (n d : ℕ) :
    (vidyaScan close n d).length = close.length := by
  simp [vidyaScan]

theorem vidyaCore_length (close : Series) (n d : ℕ) :
    (vidyaCore close n d).length = close.length := by
  simp [vidyaCore, replaceZeroNan, vidyaScan]

theorem vidyaScan_sval (close : Series) (n d i : ℕ) (h : i < close.length) :
    sval (vidyaScan close n d) i =
      vidyaVal close ((cmoPatch close n d).map oabs) n (2 / (n + 1)) i := by
  simp only [vidyaScan]
  exact sval_range_map _ _ _ h

theorem vidyaVal_early (close ac : Series) (n : ℕ) (alpha : ℚ) (i : ℕ)
    (h : i < n) : vidyaVal close ac n alpha i = some 0 := by
  cases i with
  | zero => rfl
  | succ j => simp [vidyaVal, h]

theorem cmoPatch_length (close : Series) (n d : ℕ) :
    (cmoPatch close n d).length = close.length := by simp [cmoPatch]

/-- Packaging of the VIDYA recurrence equation at index `i`: the update
rule with `alpha = 2/(n+1)`, the zero seed at index `n - 1`, and the
rolling-CMO shape of the oscillator series. -/
def VidyaRecEq (close : Series) (n d i : ℕ) : Prop :=
  sval (vidyaScan close n d) i =
    oadd (omul (omul (some (2 / (n + 1 : ℚ))) (oabs (sval (cmoPatch close n d) i)))
               (sval close i))
         (omul (sval (vidyaScan close n d) (i - 1))
               (osub (some 1)
                     (omul (some (2 / (n + 1 : ℚ))) (oabs (sval (cmoPatch close n d) i)))))
  ∧ sval (vidyaScan close n d) (n - 1) = some 0
  ∧ sval (cmoPatch close n d) i =
      odiv (osub (sval (rollingSum n (clipLower0 (seriesDiff d close))) i)
                 (sval (rollingSum n (clipUpper0Abs (seriesDiff d close))) i))
           (oadd (sval (rollingSum n (clipLower0 (seriesDiff d close))) i)
                 (sval (rollingSum n (clipUpper0Abs (seriesDiff d close))) i))

/-- C1: for every index `i` with `n ≤ i < m` the vidya scan satisfies
`out[i] = alpha*cmo_abs[i]*close[i] + out[i-1]*(1 - alpha*cmo_abs[i])`
with `alpha = 2/(n+1)`, the seed carried into the first update is
`out[n-1] = 0`, and `cmo_abs` is the absolute value of the ratio of the
windowed positive-minus-negative difference sums to their total, using
drift `d` for the differencing step. -/
theorem vidya_recurrence (close : Series) (n d i : ℕ)
    (hn : 1 ≤ n) (hi : n ≤ i) (him : i < close.length) :
    VidyaRecEq close n d i := by
  have hlen : (cmoPatch close n d).length = close.length := cmoPatch_length close n d
  have hac : sval ((cmoPatch close n d).map oabs) i
      = oabs (sval (cmoPatch close n d) i) := by
    apply sval_map; rw [hlen]; exact him
  refine ⟨?_, ?_, ?_⟩
  · rw [vidyaScan_sval close n d i him]
    obtain ⟨j, rfl⟩ : ∃ j, i = j + 1 := ⟨i - 1, by omega⟩
    rw [vidyaVal]
    have : ¬ (j + 1 < n) := by omega
    rw [if_neg this, hac]
    congr 1
    rcases Nat.lt_or_ge j close.length with hj | hj
    · rw [show j + 1 - 1 = j from rfl, vidyaScan_sval close n d j hj]
    · omega
  · have h1 : n - 1 < close.length := by omega
    rw [vidyaScan_sval close n d (n - 1) h1, vidyaVal_early]
    omega
  · simp only [cmoPatch]
    rw [sval_range_map _ _ _ him]

theorem vidya_recurrence_witness :
    (1 ≤ 1 ∧ 1 ≤ 1 ∧ 1 < ([some 1, some 2] : Series).length) ∧
      VidyaRecEq [some 1, some 2] 1 1 1 :=
  ⟨⟨le_refl 1, le_refl 1, by decide⟩,
   vidya_recurrence [some 1, some 2] 1 1 1 (le_refl 1) (le_refl 1) (by decide)⟩

theorem omul_none_left (y : Option ℚ) : omul none y = none := by cases y <;> rfl

theorem omul_none_right (x : Option ℚ) : omul x none = none := by cases x <;> rfl

theorem oadd_none_right (x : Option ℚ) : oadd x none = none := by cases x <;> rfl

theorem oadd_none_left (y : Option ℚ) : oadd none y = none := by cases y <;> rfl

theorem odiv_zero_den (x : Option ℚ) : odiv x (some 0) = none := by
  cases x <;> simp [odiv]

theorem sval_replaceZeroNan (s : Series) (i : ℕ) (h : i < s.length) :
    sval (replaceZeroNan s) i =
      if sval s i = some 0 then none else sval s i := by
  simpa [replaceZeroNan] using sval_map (fun x => if x = some 0 then none else x) s i h

/-- Packaging of the corrected null pattern of the vidya output: an
in-range position of the final series is null exactly when the scan cell
holds `0` (never updated, or updated to exactly `0`) or NaN; positions
below the window length are always null; a non-zero computed value
survives unchanged. -/
def VidyaNullPattern (close : Series) (n d i : ℕ) : Prop :=
  (sval (vidyaCore close n d) i = none ↔
      sval (vidyaScan close n d) i = some 0 ∨ sval (vidyaScan close n d) i = none)
  ∧ (i < n → sval (vidyaCore close n d) i = none)
  ∧ (∀ x : ℚ, x ≠ 0 → sval (vidyaScan close n d) i = some x →
      sval (vidyaCore close n d) i = some x)

/-- C4 (amended): nulls of the vidya output are exactly the scan cells
holding `0` or NaN, so a legitimately computed `0` at `i ≥ n` is also
emitted as null. -/
theorem vidya_null_pattern (close : Series) (n d i : ℕ)
    (him : i < close.length) : VidyaNullPattern close n d i := by
  have hlen : (vidyaScan close n d).length = close.length :=
    vidyaScan_length close n d
  have hrep := sval_replaceZeroNan (vidyaScan close n d) i (by omega)
  refine ⟨?_, ?_, ?_⟩
  · rw [show vidyaCore close n d = replaceZeroNan (vidyaScan close n d) from rfl, hrep]
    by_cases h0 : sval (vidyaScan close n d) i = some 0
    · simp [h0]
    · simp only [if_neg h0]
      constructor
      · intro h; exact Or.inr h
      · rintro (h | h)
        · exact absurd h h0
        · exact h
  · intro hin
    rw [show vidyaCore close n d = replaceZeroNan (vidyaScan close n d) from rfl, hrep,
      vidyaScan_sval close n d i him, vidyaVal_early close _ n _ i hin]
    simp [vidyaScan_sval close n d i him, vidyaVal_early close _ n _ i hin]
  · intro x hx hsx
    rw [show vidyaCore close n d = replaceZeroNan (vidyaScan close n d) from rfl, hrep, hsx]
    simp [hx]

theorem vidya_null_pattern_witness :
    1 < ([some 1, some 2] : Series).length ∧ VidyaNullPattern [some 1, some 2] 1 1 1 :=
  ⟨by decide, vidya_null_pattern [some 1, some 2] 1 1 1 (by decide)⟩

/-- C4, counterexample to the claim as stated: with `close = [1, 0]`,
`length = 1`, `drift = 1`, the recurrence update at position `1`
legitimately computes the exact value `0`, yet the returned series holds
null there (the `replace(\x7b0: nan\x7d)` sentinel conversion erases it). -/
theorem vidya_zero_update_nulled :
    sval (vidyaScan [some 1, some 0] 1 1) 1 = some 0 ∧
    sval (vidyaCore [some 1, some 0] 1 1) 1 = none := by
  norm_num [vidyaCore, vidyaScan, vidyaVal, cmoPatch, seriesDiff, clipLower0,
    clipUpper0Abs, rollingSum, windowSum, replaceZeroNan, oabs,
    sval, oadd, osub, omul, odiv, List.range_succ]

theorem vidyaVal_none_at (close ac : Series) (n : ℕ) (alpha : ℚ) (i : ℕ)
    (hn : 1 ≤ n) (hi : n ≤ i) (hac : sval ac i = none) :
    vidyaVal close ac n alpha i = none := by
  obtain ⟨j, rfl⟩ : ∃ j, i = j + 1 := ⟨i - 1, by omega⟩
  rw [vidyaVal, if_neg (by omega : ¬ (j + 1 < n)), hac]
  rw [omul_none_right, omul_none_left, oadd_none_left]

theorem vidyaVal_none_succ (close ac : Series) (n : ℕ) (alpha : ℚ) (j : ℕ)
    (hn : 1 ≤ n) (hj : n ≤ j)
    (hprev : vidyaVal close ac n alpha j = none) :
    vidyaVal close ac n alpha (j + 1) = none := by
  rw [vidyaVal, if_neg (by omega : ¬ (j + 1 < n)), hprev]
  rw [omul_none_left, oadd_none_right]

/-- Packaging of the zero-denominator poisoning behavior: the oscillator
ratio at `i` is NaN and every output position from `i` on is null. -/
def VidyaPoison (close : Series) (n d i : ℕ) : Prop :=
  sval (cmoPatch close n d) i = none ∧
  ∀ j, i ≤ j → j < close.length → sval (vidyaCore close n d) j = none

/-- C5: when the trailing-window positive-plus-negative sum at a step
`i ≥ n` is exactly zero, the oscillator ratio at `i` is NaN (0/0, nothing
is raised: the embedding is total), the output at `i` is null, and the
null propagates through the `out[i-1]` carry to every later position. -/
theorem vidya_zero_denominator_poisons (close : Series) (n d i : ℕ)
    (hn : 1 ≤ n) (hi : n ≤ i) (him : i < close.length)
    (hden : oadd (sval (rollingSum n (clipLower0 (seriesDiff d close))) i)
                 (sval (rollingSum n (clipUpper0Abs (seriesDiff d close))) i)
              = some 0) :
    VidyaPoison close n d i := by
  have hcmo : sval (cmoPatch close n d) i = none := by
    simp only [cmoPatch]
    rw [sval_range_map _ _ _ him, hden, odiv_zero_den]
  have hscan : ∀ j, i ≤ j → j < close.length →
      sval (vidyaScan close n d) j = none := by
    intro j hij hjm
    induction j with
    | zero =>
      have : i = 0 := by omega
      subst this
      rw [vidyaScan_sval close n d 0 hjm]
      exact vidyaVal_none_at close _ n _ 0 hn hi (by
        rw [sval_map _ _ _ (by rw [cmoPatch_length]; omega), hcmo]; rfl)
    | succ k ih =>
      rcases Nat.lt_or_ge i (k + 1) with hik | hik
      · have hk : k < close.length := by omega
        have hprev := ih (by omega) hk
        rw [vidyaScan_sval close n d (k + 1) hjm]
        apply vidyaVal_none_succ close _ n _ k hn (by omega)
        rw [vidyaScan_sval close n d k hk] at hprev
        exact hprev
      · have : i = k + 1 := by omega
        subst this
        rw [vidyaScan_sval close n d (k + 1) hjm]
        exact vidyaVal_none_at close _ n _ (k + 1) hn hi (by
          rw [sval_map _ _ _ (by rw [cmoPatch_length]; omega), hcmo]; rfl)
  refine ⟨hcmo, fun j hij hjm => ?_⟩
  rw [show vidyaCore close n d = replaceZeroNan (vidyaScan close n d) from rfl,
    sval_replaceZeroNan _ _ (by rw [vidyaScan_length]; omega), hscan j hij hjm]
  simp

theorem vidya_zero_denominator_poisons_witness :
    (1 ≤ 1 ∧ 1 ≤ 1 ∧ 1 < ([some 1, some 1, some 1] : Series).length ∧
      oadd (sval (rollingSum 1 (clipLower0 (seriesDiff 1 [some 1, some 1, some 1]))) 1)
           (sval (rollingSum 1 (clipUpper0Abs (seriesDiff 1 [some 1, some 1, some 1]))) 1)
        = some 0) ∧
    VidyaPoison [some 1, some 1, some 1] 1 1 1 :=
  ⟨⟨le_refl 1, le_refl 1, by decide, by
      norm_num [rollingSum, windowSum, clipLower0, clipUpper0Abs, seriesDiff,
        sval, oadd, osub, List.range_succ]⟩,
   vidya_zero_denominator_poisons [some 1, some 1, some 1] 1 1 1
     (le_refl 1) (le_refl 1) (by decide)
     (by norm_num [rollingSum, windowSum, clipLower0, clipUpper0Abs, seriesDiff,
        sval, oadd, osub, List.range_succ])⟩

theorem shiftSeries_length (k : ℤ) (s : Series) :
    (shiftSeries k s).length = s.length := by simp [shiftSeries]

theorem sval_shift (k : ℤ) (s : Series) (i : ℕ) (h : i < s.length) :
    sval (shiftSeries k s) i =
      if 0 ≤ (i : ℤ) - k ∧ (i : ℤ) - k < (s.length : ℤ) then
        sval s ((i : ℤ) - k).toNat
      else none := by
  simp only [shiftSeries]
  exact sval_range_map _ _ _ h

/-- C8, counterexample to the claim as stated: shifting `[1]` by `1` and
then by `-1` yields `[null]`, not the original series — the value moved
past the end of the series is dropped by the first shift. -/
theorem offset_roundtrip_counterexample :
    sval (shiftSeries (-1) (shiftSeries 1 [some 1])) 0 ≠ sval [some 1] 0 := by
  decide

/-- C8 (amended): offsetting by `k` and then by `-k` restores the value at
every position that stays inside the series under the first shift
(`0 ≤ i + k < m`); every other position is left null, its value having
been dropped at the boundary. -/
theorem offset_roundtrip (s : Series) (k : ℤ) (i : ℕ) (him : i < s.length) :
    ((0 ≤ (i : ℤ) + k ∧ (i : ℤ) + k < (s.length : ℤ)) →
        sval (shiftSeries (-k) (shiftSeries k s)) i = sval s i) ∧
    (¬ (0 ≤ (i : ℤ) + k ∧ (i : ℤ) + k < (s.length : ℤ)) →
        sval (shiftSeries (-k) (shiftSeries k s)) i = none) := by
  have hlen : (shiftSeries k s).length = s.length := shiftSeries_length k s
  have houter := sval_shift (-k) (shiftSeries k s) i (by omega)
  rw [hlen] at houter
  constructor
  · intro hin
    rw [houter, if_pos (by omega)]
    have hidx : ((i : ℤ) - -k).toNat < s.length := by omega
    rw [sval_shift k s _ (by omega)]
    have hcast : ((((i : ℤ) - -k).toNat : ℤ)) = (i : ℤ) + k := by omega
    rw [if_pos (by constructor <;> omega)]
    congr 1
    omega
  · intro hout
    rw [houter, if_neg (by omega)]

theorem offset_roundtrip_witness :
    0 < ([some 1, some 2] : Series).length ∧
    (((0 ≤ (0 : ℤ) + 1 ∧ (0 : ℤ) + 1 < (([some 1, some 2] : Series).length : ℤ)) →
        sval (shiftSeries (-1) (shiftSeries 1 [some 1, some 2])) 0
          = sval [some 1, some 2] 0) ∧
     (¬ (0 ≤ (0 : ℤ) + 1 ∧ (0 : ℤ) + 1 < (([some 1, some 2] : Series).length : ℤ)) →
        sval (shiftSeries (-1) (shiftSeries 1 [some 1, some 2])) 0 = none)) :=
  ⟨by decide, offset_roundtrip [some 1, some 2] 1 0 (by decide)⟩

/-- Modelled from the spec: the simple moving average `sma` used by `dpo`
and `pgo` is absent from src/; §4.3 describes it as the rolling mean over
a trailing window of length `n`, emitting values only once `n`
observations are available. -/
def smaSpec (n : ℕ) (s : Series) : Series :=
  (rollingSum n s).map (Option.map (fun x => x / (n : ℚ)))

/-- `dpo` of `pandas_ta/trend/dpo.py` before offset/fill post-processing:
`t = length/2 + 1`; centered mode computes `(close.shift(t) - ma).shift(-t)`,
the plain mode `close - ma.shift(t)`. -/
def dpoCore (close : Series) (n : ℕ) (centered : Bool) : Series :=
  let t : ℕ := n / 2 + 1
  let ma := smaSpec n close
  if centered then shiftSeries (-(t : ℤ)) (szip osub (shiftSeries (t : ℤ) close) ma)
  else szip osub close (shiftSeries (t : ℤ) ma)

theorem szip_length (f : Option ℚ → Option ℚ → Option ℚ) (s t : Series) :
    (szip f s t).length = min s.length t.length := by simp [szip]

theorem sval_szip (f : Option ℚ → Option ℚ → Option ℚ) (s t : Series) (i : ℕ)
    (hs : i < s.length) (ht : i < t.length) :
    sval (szip f s t) i = f (sval s i) (sval t i) := by
  simp [szip, sval, List.getD, List.getElem?_zipWith,
    List.getElem?_eq_getElem hs, List.getElem?_eq_getElem ht]

theorem rollingSum_length (n : ℕ) (s : Series) :
    (rollingSum n s).length = s.length := by simp [rollingSum]

theorem smaSpec_length (n : ℕ) (s : Series) :
    (smaSpec n s).length = s.length := by simp [smaSpec, rollingSum]

theorem sval_rollingSum (n : ℕ) (s : Series) (i : ℕ) (h : i < s.length) :
    sval (rollingSum n s) i = if i + 1 < n then none else windowSum s n i := by
  simp only [rollingSum]
  exact sval_range_map _ _ _ h

theorem sval_smaSpec (n : ℕ) (s : Series) (i : ℕ) (h : i < s.length) :
    sval (smaSpec n s) i =
      Option.map (fun x => x / (n : ℚ))
        (if i + 1 < n then none else windowSum s n i) := by
  rw [smaSpec, sval_map _ _ _ (by rw [rollingSum_length]; exact h),
    sval_rollingSum n s i h]

theorem windowSum_congr (s₁ s₂ : Series) (n j : ℕ)
    (h : ∀ l, l ≤ j → sval s₁ l = sval s₂ l) :
    windowSum s₁ n j = windowSum s₂ n j := by
  unfold windowSum
  congr 1
  apply List.map_congr_left
  intro l _
  exact h (j - l) (by omega)

/-- The centered dpo equation: the output at `i` is the close at `i`
minus the simple moving average taken `t = length/2 + 1` positions in the
future. -/
def DpoCenteredEq (close : Series) (n i : ℕ) : Prop :=
  sval (dpoCore close n true) i =
    osub (sval close i) (sval (smaSpec n close) (i + (n / 2 + 1)))

/-- The non-centered dpo at `i` depends only on inputs at positions at or
before `i`. -/
def DpoPastOnly (close : Series) (n i : ℕ) : Prop :=
  ∀ close₂ : Series, close₂.length = close.length →
    (∀ l, l ≤ i → sval close₂ l = sval close l) →
    sval (dpoCore close₂ n false) i = sval (dpoCore close n false) i

/-- C9: with centered true (the default), `out[i] = close[i] - sma[i+t]`
with `t = length/2 + 1`, so the value at `i` reads the moving average
computed `t` positions in the future; with centered false the output at
`i` is determined by the inputs at positions `≤ i`. -/
theorem dpo_centered_lookahead (close : Series) (n i : ℕ)
    (hfut : i + (n / 2 + 1) < close.length) :
    DpoCenteredEq close n i ∧ DpoPastOnly close n i := by
  constructor
  · set t : ℕ := n / 2 + 1 with ht
    have him : i < close.length := by omega
    have hXlen : (szip osub (shiftSeries (t : ℤ) close) (smaSpec n close)).length
        = close.length := by
      rw [szip_length, shiftSeries_length, smaSpec_length, min_self]
    show sval (shiftSeries (-(t : ℤ))
        (szip osub (shiftSeries (t : ℤ) close) (smaSpec n close))) i = _
    rw [sval_shift _ _ i (by rw [hXlen]; omega), hXlen, if_pos (by omega)]
    have hidx : ((i : ℤ) - -(t : ℤ)).toNat = i + t := by omega
    rw [hidx, sval_szip _ _ _ _ (by rw [shiftSeries_length]; omega)
      (by rw [smaSpec_length]; omega)]
    rw [sval_shift _ _ _ (by omega), if_pos (by constructor <;> omega)]
    have : (((i + t : ℕ) : ℤ) - (t : ℤ)).toNat = i := by omega
    rw [this]
  · intro close₂ hlen hagree
    have him : i < close.length := by omega
    set t : ℕ := n / 2 + 1 with ht
    show sval (szip osub close₂ (shiftSeries (t : ℤ) (smaSpec n close₂))) i
        = sval (szip osub close (shiftSeries (t : ℤ) (smaSpec n close))) i
    rw [sval_szip _ _ _ _ (by omega) (by rw [shiftSeries_length, smaSpec_length]; omega),
        sval_szip _ _ _ _ (by omega) (by rw [shiftSeries_length, smaSpec_length]; omega)]
    rw [hagree i (le_refl i)]
    congr 1
    rw [sval_shift _ _ _ (by rw [smaSpec_length]; omega),
        sval_shift _ _ _ (by rw [smaSpec_length]; omega),
        smaSpec_length, smaSpec_length, hlen]
    by_cases hc : 0 ≤ (i : ℤ) - (t : ℤ) ∧ (i : ℤ) - (t : ℤ) < (close.length : ℤ)
    · rw [if_pos hc, if_pos hc]
      have hj : ((i : ℤ) - (t : ℤ)).toNat ≤ i := by omega
      have hjm : ((i : ℤ) - (t : ℤ)).toNat < close.length := by omega
      rw [sval_smaSpec _ _ _ (by omega), sval_smaSpec _ _ _ (by omega)]
      congr 1
      by_cases hw : ((i : ℤ) - (t : ℤ)).toNat + 1 < n
      · rw [if_pos hw, if_pos hw]
      · rw [if_neg hw, if_neg hw]
        apply windowSum_congr
        intro l hl
        exact hagree l (by omega)
    · rw [if_neg hc, if_neg hc]

theorem dpo_centered_lookahead_witness :
    0 + (1 / 2 + 1) < ([some 1, some 2, some 3] : Series).length ∧
    (DpoCenteredEq [some 1, some 2, some 3] 1 0 ∧
      DpoPastOnly [some 1, some 2, some 3] 1 0) :=
  ⟨by decide, dpo_centered_lookahead [some 1, some 2, some 3] 1 0 (by decide)⟩

theorem sval_eq_getElem (s : Series) (i : ℕ) (h : i < s.length) :
    sval s i = s[i] := by
  simp [sval, List.getD, List.getElem?_eq_getElem h]

/-- Index of the first non-null entry of a series (its length when every
entry is null): how many warm-up nulls an input carries into a smoothing
pass. -/
def leadingNones (s : Series) : ℕ := s.findIdx (fun x => x.isSome)

theorem leadingNones_ge (s : Series) (k₀ : ℕ)
    (hpre : ∀ j, j < k₀ → sval s j = none) :
    min k₀ s.length ≤ leadingNones s := by
  rcases Nat.lt_or_ge k₀ s.length with hk | hk
  · rw [min_eq_left (le_of_lt hk)]
    apply List.le_findIdx_of_not hk
    intro j hj
    have := hpre j hj
    rw [sval_eq_getElem s j (by omega)] at this
    simp [this]
  · rw [min_eq_right hk]
    have : s.findIdx (fun x => x.isSome) = s.length := by
      apply List.findIdx_eq_length_of_false
      intro x hx
      obtain ⟨j, hj, rfl⟩ := List.mem_iff_getElem.mp hx
      have := hpre j (by omega)
      rw [sval_eq_getElem s j (by omega)] at this
      simp [this]
    rw [leadingNones, this]

/-- Recurrence cell of the spec-modelled exponential moving average with
sma seeding: the cell at `k + n - 1` holds the simple mean of the `n`
observations ending there (`k` counts the input's leading nulls), cells
before it are null, and each later cell is
`alpha * x[i] + (1 - alpha) * prev`. -/
def emaRec (s : Series) (n k : ℕ) (alpha : ℚ) : ℕ → Option ℚ
  | 0 => if 0 + 1 = k + n then sval (smaSpec n s) 0 else none
  | i + 1 =>
    if i + 2 ≤ k + n then
      (if i + 2 = k + n then sval (smaSpec n s) (i + 1) else none)
    else
      oadd (omul (some alpha) (sval s (i + 1)))
           (omul (some (1 - alpha)) (emaRec s n k alpha i))

/-- Modelled from the spec: the exponential moving average `ema` (absent
from src/), per §4.3 — smoothing factor `2/(n+1)` derived from the window
length, seeded by the simple mean of the first `n` observations (the
selectable sma-seeding, the library default), null before the seed;
leading nulls of the input postpone the seed. -/
def emaSpec (n : ℕ) (s : Series) : Series :=
  (List.range s.length).map (emaRec s n (leadingNones s) (2 / (n + 1)))

theorem emaSpec_length (n : ℕ) (s : Series) :
    (emaSpec n s).length = s.length := by simp [emaSpec]

theorem emaRec_early (s : Series) (n k : ℕ) (alpha : ℚ) (i : ℕ)
    (h : i + 1 < k + n) : emaRec s n k alpha i = none := by
  cases i with
  | zero => simp only [emaRec]; rw [if_neg (by omega)]
  | succ j =>
    simp only [emaRec]
    rw [if_pos (by omega), if_neg (by omega)]

/-- Null-propagation of the ema seed: if the first `k₀` inputs are null,
outputs before index `k₀ + n - 1` are null. -/
theorem emaSpec_early (n : ℕ) (s : Series) (k₀ : ℕ) (hn : 1 ≤ n)
    (hpre : ∀ j, j < k₀ → sval s j = none) (i : ℕ)
    (hi : i + 1 < k₀ + n) : sval (emaSpec n s) i = none := by
  rcases Nat.lt_or_ge i s.length with him | him
  · rw [emaSpec, sval_range_map _ _ _ him]
    apply emaRec_early
    have := leadingNones_ge s k₀ hpre
    rcases Nat.lt_or_ge s.length k₀ with hc | hc
    · omega
    · omega
  · exact sval_oob _ _ (by rw [emaSpec_length]; omega)

/-- Recurrence cell of the spec-modelled Wilder smoothing (`rma`): seeded
by the first non-null observation (index `k`), then
`alpha * x[i] + (1 - alpha) * prev` with `alpha = 1/n`. -/
def rmaRec (s : Series) (k : ℕ) (alpha : ℚ) : ℕ → Option ℚ
  | 0 => sval s 0
  | i + 1 =>
    if i + 1 ≤ k then sval s (i + 1)
    else
      oadd (omul (some alpha) (sval s (i + 1)))
           (omul (some (1 - alpha)) (rmaRec s k alpha i))

/-- Modelled from the spec: the Wilder moving average `rma` (absent from
src/), per §4.3 — exponential smoothing with factor `1/n` seeded by the
first observation, emitting values only once `n` observations are
available (null before index `k + n - 1` for `k` leading input nulls). -/
def rmaSpec (n : ℕ) (s : Series) : Series :=
  (List.range s.length).map fun (i : ℕ) =>
    if i + 1 < leadingNones s + n then none
    else rmaRec s (leadingNones s) (1 / n) i

theorem rmaSpec_length (n : ℕ) (s : Series) :
    (rmaSpec n s).length = s.length := by simp [rmaSpec]

/-- Null-propagation of the rma warm-up: if the first `k₀` inputs are
null, outputs before index `k₀ + n - 1` are null. -/
theorem rmaSpec_early (n : ℕ) (s : Series) (k₀ : ℕ) (hn : 1 ≤ n)
    (hpre : ∀ j, j < k₀ → sval s j = none) (i : ℕ)
    (hi : i + 1 < k₀ + n) : sval (rmaSpec n s) i = none := by
  rcases Nat.lt_or_ge i s.length with him | him
  · rw [rmaSpec, sval_range_map _ _ _ him]
    have := leadingNones_ge s k₀ hpre
    rw [if_pos (by rcases Nat.lt_or_ge s.length k₀ with hc | hc <;> omega)]
  · exact sval_oob _ _ (by rw [rmaSpec_length]; omega)

/-- The bundled (non-TA-Lib) path of `t3` in `pandas_ta/overlap/t3.py`:
coefficients `c1 = -a*a^2`, `c2 = 3a^2+3a^3`, `c3 = -6a^2-3a-3a^3`,
`c4 = a^3+3a^2+3a+1`, six chained ema passes, result
`c1*e6 + c2*e5 + c3*e4 + c4*e3` (left-associated elementwise sums). -/
def t3Core (close : Series) (n : ℕ) (a : ℚ) : Series :=
  let c1 := -a * a ^ 2
  let c2 := 3 * a ^ 2 + 3 * a ^ 3
  let c3 := -6 * a ^ 2 - 3 * a - 3 * a ^ 3
  let c4 := a ^ 3 + 3 * a ^ 2 + 3 * a + 1
  let e1 := emaSpec n close
  let e2 := emaSpec n e1
  let e3 := emaSpec n e2
  let e4 := emaSpec n e3
  let e5 := emaSpec n e4
  let e6 := emaSpec n e5
  szip oadd
    (szip oadd (szip oadd (smulScalar c1 e6) (smulScalar c2 e5)) (smulScalar c3 e4))
    (smulScalar c4 e3)

/-- The t3 contract of spec §4.2: `e1..e6` are the six chained ema passes
(each consuming the previous pass's full output series) and the result is
`c1*e6 + c2*e5 + c3*e4 + c4*e3` with `c1 = -a^3`, `c2 = 3a^2 + 3a^3`,
`c3 = -6a^2 - 3a - 3a^3`, `c4 = a^3 + 3a^2 + 3a + 1`. -/
def T3SpecCombination (close : Series) (n : ℕ) (a : ℚ) : Prop :=
  ∃ e1 e2 e3 e4 e5 e6 : Series,
    e1 = emaSpec n close ∧ e2 = emaSpec n e1 ∧ e3 = emaSpec n e2 ∧
    e4 = emaSpec n e3 ∧ e5 = emaSpec n e4 ∧ e6 = emaSpec n e5 ∧
    t3Core close n a =
      szip oadd
        (szip oadd
          (szip oadd (smulScalar (-(a ^ 3)) e6)
                     (smulScalar (3 * a ^ 2 + 3 * a ^ 3) e5))
          (smulScalar (-6 * a ^ 2 - 3 * a - 3 * a ^ 3) e4))
        (smulScalar (a ^ 3 + 3 * a ^ 2 + 3 * a + 1) e3)

/-- C2: for `a ∈ (0,1)` the bundled t3 equals the four most-smoothed of
six chained ema passes combined with the spec's polynomial coefficients;
in particular the code's `c1 = -a * a^2` equals the spec's `-a^3`. -/
theorem t3_combination (close : Series) (n : ℕ) (a : ℚ)
    (ha : 0 < a ∧ a < 1) : T3SpecCombination close n a := by
  refine ⟨emaSpec n close, emaSpec n (emaSpec n close), _, _, _, _,
    rfl, rfl, rfl, rfl, rfl, rfl, ?_⟩
  simp only [t3Core]
  have h1 : -a * a ^ 2 = -(a ^ 3) := by ring
  rw [h1]

theorem t3_combination_witness :
    (0 < (7 : ℚ) / 10 ∧ (7 : ℚ) / 10 < 1) ∧
      T3SpecCombination [some 1, some 2] 1 (7 / 10) :=
  ⟨by norm_num, t3_combination [some 1, some 2] 1 (7 / 10) (by norm_num)⟩

/-- The bundled branch of `cmo` in `pandas_ta/momentum/cmo.py`: momentum
`diff(drift)`, positive/negative parts, Wilder-smoothed when `mode_tal`
is true (the default) or rolling-summed otherwise, then
`scalar * (pos - neg) / (pos + neg)` elementwise. -/
def cmoCore (close : Series) (n d : ℕ) (scalar : ℚ) (modeTal : Bool) : Series :=
  let mom := seriesDiff d close
  let positive := clipLower0 mom
  let negative := clipUpper0Abs mom
  let p := if modeTal then rmaSpec n positive else rollingSum n positive
  let q := if modeTal then rmaSpec n negative else rollingSum n negative
  szip odiv (smulScalar scalar (szip osub p q)) (szip oadd p q)

/-- Modelled from the spec: the true range underlying `atr` (absent from
src/) — the elementwise max of `high - low`, `|high - prevClose|` and
`|low - prevClose|`, null at position 0 where no previous close exists. -/
def trueRange (high low close : Series) : Series :=
  (List.range close.length).map fun (i : ℕ) =>
    if i = 0 then none
    else
      match sval high i, sval low i, sval close (i - 1) with
      | some h, some l, some c => some (max (h - l) (max |h - c| |l - c|))
      | _, _, _ => none

/-- Modelled from the spec: `atr` (absent from src/) is the §4.3 Wilder
exponential smoothing of the true range over window `n`. -/
def atrSpec (high low close : Series) (n : ℕ) : Series :=
  rmaSpec n (trueRange high low close)

/-- `pgo` of `pandas_ta/momentum/pgo.py`: `close - sma(close, n)` divided
elementwise by `ema(atr(high, low, close, n), n)`. -/
def pgoCore (high low close : Series) (n : ℕ) : Series :=
  szip odiv (szip osub close (smaSpec n close))
            (emaSpec n (atrSpec high low close n))

/-- Modelled from the spec: `tsi` (absent from src/), per the smi
docstring — double exponential moving averages (slow pass then fast pass)
of the one-period price difference and of its absolute value, their
scaled ratio, and an ema signal line of window `sig`. -/
def tsiSpec (close : Series) (fast slow sig : ℕ) (scalar : ℚ) :
    Series × Series :=
  let d := seriesDiff 1 close
  let num := emaSpec fast (emaSpec slow d)
  let den := emaSpec fast (emaSpec slow (d.map oabs))
  let t := szip odiv (smulScalar scalar num) den
  (t, emaSpec sig t)

/-- `smi` of `pandas_ta/momentum/smi.py`: the tsi line, its signal line,
and the oscillator `smi - signal`. -/
def smiCore (close : Series) (fast slow sig : ℕ) (scalar : ℚ) :
    Series × Series × Series :=
  let r := tsiSpec close fast slow sig scalar
  (r.1, r.2, szip osub r.1 r.2)

/-- Fibonacci numbers 1, 1, 2, 3, 5, ... -/
def fibSeq : ℕ → ℕ
  | 0 => 1
  | 1 => 1
  | i + 2 => fibSeq i + fibSeq (i + 1)

/-- Modelled from the spec: `fibonacci(n, weighted=True)` composed with
`weights` under a rolling window (all absent from src/), per §4.3 — each
output element is the dot product of the fixed Fibonacci weight sequence
with the trailing window of length `n`, divided by the weight sum; null
until `n` observations are available or when the window holds a NaN. -/
def fwmaCore (close : Series) (n : ℕ) : Series :=
  let tot : ℚ := ((List.range n).map (fun j => (fibSeq j : ℚ))).sum
  (List.range close.length).map fun (i : ℕ) =>
    if i + 1 < n then none
    else
      Option.map (fun v => v / tot)
        (((List.range n).map
            (fun j => omul (some ((fibSeq j : ℚ))) (sval close (i + 1 - n + j)))).foldr
          oadd (some 0))

/-- Modelled from the spec: `roc` (absent from src/), the percent rate of
change `100 * close.diff(n) / close.shift(n)`. -/
def rocSpec (n : ℕ) (s : Series) : Series :=
  szip odiv (smulScalar 100 (seriesDiff n s)) (shiftSeries (n : ℤ) s)

/-- The volume-increase mask of `pvi`: `signed_series(volume, 1)` is the
sign of the one-period volume change with initial entry 1, and the code
keeps exactly the positions where that sign is positive. -/
def pviMask (volume : Series) (i : ℕ) : Bool :=
  if i = 0 then true
  else
    match sval volume i, sval volume (i - 1) with
    | some a, some b => decide (b < a)
    | _, _ => false

/-- Running cumulative sums of a list starting from an accumulator. -/
def cumsumFrom : ℚ → List ℚ → List ℚ
  | _, [] => []
  | acc, x :: xs => (acc + x) :: cumsumFrom (acc + x) xs

/-- `s.iloc[0] = v`: overwrite the first entry when one exists. -/
def setHead (v : ℚ) : List ℚ → List ℚ
  | [] => []
  | _ :: xs => v :: xs

/-- `pvi` of `pandas_ta/volume/pvi.py` before offset/fill: the rate of
change kept where volume increased (NaN elsewhere), `fillna(0)`,
position 0 overwritten with `initial`, then the cumulative sum. -/
def pviCore (close volume : Series) (n : ℕ) (initial : ℚ) : Series :=
  let r := rocSpec n close
  let pre := (List.range close.length).map fun (i : ℕ) =>
    if pviMask volume i then sval r i else none
  let filled : List ℚ := pre.map (fun x => x.getD 0)
  (cumsumFrom 0 (setHead initial filled)).map some

/-- Modelled from the spec: `verify_series` (absent from src/), per §4.4 —
reject (return null) when the series is absent or shorter than the
required minimum length. -/
def verify_series (s : Option Series) (minLen : ℕ) : Option Series :=
  match s with
  | none => none
  | some l => if l.length < minLen then none else some l

/-- Modelled from the spec: `get_offset` (absent from src/) — a missing
offset defaults to 0. -/
def getOffset (o : Option ℤ) : ℤ := o.getD 0

/-- Modelled from the spec: `get_drift` (absent from src/) — the
differencing lag, defaulting to 1 when absent or non-positive. -/
def getDrift (o : Option ℤ) : ℕ :=
  match o with
  | some d => if 0 < d then d.toNat else 1
  | none => 1

/-- The validation idiom `length = int(length) if length and length > 0
else dflt` shared by every indicator: a missing, zero or negative length
is silently replaced by the indicator's hardcoded fallback `dflt`. -/
def validLength (length : Option ℤ) (dflt : ℕ) : ℕ :=
  match length with
  | some l => if 0 < l then l.toNat else dflt
  | none => dflt

/-- `a = float(a) if a and a > 0 and a < 1 else 0.7` of t3. -/
def validA (a : Option ℚ) : ℚ :=
  match a with
  | some x => if 0 < x ∧ x < 1 then x else 7 / 10
  | none => 7 / 10

/-- `scalar = float(scalar) if scalar else dflt`: Python truthiness, so
an explicit 0 also falls back. -/
def validScalar (s : Option ℚ) (dflt : ℚ) : ℚ :=
  match s with
  | some x => if x ≠ 0 then x else dflt
  | none => dflt

/-- Offset and constant-fill post-processing shared by every indicator
(`if offset != 0: s = s.shift(offset)` then optional `fillna`). -/
def postProcess (k : ℤ) (fill : Option ℚ) (s : Series) : Series :=
  fillConst fill (if k ≠ 0 then shiftSeries k s else s)

/-- `vidya(close, length, drift, offset, **kwargs)` — validation, the
bundled computation, offset and fill (the optional TA-Lib import is
modelled as absent, and name/category tagging is dropped). -/
def vidya (close : Option Series) (length drift offset : Option ℤ)
    (fillna : Option ℚ) : Option Series :=
  let n := validLength length 14
  match verify_series close n with
  | none => none
  | some c =>
      some (postProcess (getOffset offset) fillna (vidyaCore c n (getDrift drift)))

/-- `cmo(close, length, scalar, talib, drift, offset, **kwargs)`; with the
TA-Lib import absent the bundled branch runs, `mode_tal` selecting Wilder
smoothing (default) over rolling sums. -/
def cmo (close : Option Series) (length : Option ℤ) (scalar : Option ℚ)
    (talib : Option Bool) (drift offset : Option ℤ) (fillna : Option ℚ) :
    Option Series :=
  let n := validLength length 14
  let sc := validScalar scalar 100
  let modeTal := talib.getD true
  match verify_series close n with
  | none => none
  | some c =>
      some (postProcess (getOffset offset) fillna
        (cmoCore c n (getDrift drift) sc modeTal))

/-- `t3(close, length, a, talib, offset, **kwargs)` on the bundled path
(TA-Lib modelled absent). -/
def t3 (close : Option Series) (length : Option ℤ) (a : Option ℚ)
    (talib : Option Bool) (offset : Option ℤ) (fillna : Option ℚ) :
    Option Series :=
  let n := validLength length 10
  let av := validA a
  match verify_series close n with
  | none => none
  | some c => some (postProcess (getOffset offset) fillna (t3Core c n av))

/-- `pgo(high, low, close, length, offset, **kwargs)`. -/
def pgo (high low close : Option Series) (length offset : Option ℤ)
    (fillna : Option ℚ) : Option Series :=
  let n := validLength length 14
  match verify_series high n, verify_series low n, verify_series close n with
  | some h, some l, some c =>
      some (postProcess (getOffset offset) fillna (pgoCore h l c n))
  | _, _, _ => none

/-- `fwma(close, length, asc, offset, **kwargs)`: the `asc` flag is
normalized (`asc = asc if asc else True`) and then never used. -/
def fwma (close : Option Series) (length : Option ℤ) (asc : Option Bool)
    (offset : Option ℤ) (fillna : Option ℚ) : Option Series :=
  let n := validLength length 10
  let _ascNorm : Bool := match asc with
    | some b => if b then b else true
    | none => true
  match verify_series close n with
  | none => none
  | some c => some (postProcess (getOffset offset) fillna (fwmaCore c n))

/-- `dpo(close, length, centered, offset, **kwargs)`: a `lookahead=False`
kwarg forces `centered` off. -/
def dpo (close : Option Series) (length : Option ℤ) (centered : Bool)
    (lookahead : Option Bool) (offset : Option ℤ) (fillna : Option ℚ) :
    Option Series :=
  let n := validLength length 20
  let ctr := if lookahead = some false then false else centered
  match verify_series close n with
  | none => none
  | some c => some (postProcess (getOffset offset) fillna (dpoCore c n ctr))

/-- `pvi(close, volume, length, initial, offset, **kwargs)`: the code's
length fallback is 1 (its docstring advertises 13). -/
def pvi (close volume : Option Series) (length initial offset : Option ℤ)
    (fillna : Option ℚ) : Option Series :=
  let n := validLength length 1
  let ini : ℚ := match initial with
    | some v => if 0 < v then (v : ℚ) else 1000
    | none => 1000
  match verify_series close n, verify_series volume n with
  | some c, some v =>
      some (postProcess (getOffset offset) fillna (pviCore c v n ini))
  | _, _ => none

/-- `smi(close, fast, slow, signal, scalar, offset, **kwargs)`: validated
periods (swapping when `slow < fast`), minimum input length
`max(fast, slow, signal)`, three aligned outputs. -/
def smi (close : Option Series) (fast slow sig : Option ℤ)
    (scalar : Option ℚ) (offset : Option ℤ) (fillna : Option ℚ) :
    Option (Series × Series × Series) :=
  let f0 := validLength fast 5
  let s0 := validLength slow 20
  let g := validLength sig 5
  let f := if s0 < f0 then s0 else f0
  let s := if s0 < f0 then f0 else s0
  let sc := validScalar scalar 1
  match verify_series close (max f (max s g)) with
  | none => none
  | some c =>
      let r := smiCore c f s g sc
      some (postProcess (getOffset offset) fillna r.1,
            postProcess (getOffset offset) fillna r.2.1,
            postProcess (getOffset offset) fillna r.2.2)

/-- C10: the output of `fwma` is independent of its `asc` argument — the
flag is normalized to `True` whenever falsy and never read afterwards, so
any two `asc` values (true, false or absent) give identical results for
every input, length and option set. -/
theorem fwma_ignores_asc (close : Option Series) (length : Option ℤ)
    (a1 a2 : Option Bool) (offset : Option ℤ) (fillna : Option ℚ) :
    fwma close length a1 offset fillna = fwma close length a2 offset fillna := rfl

/-- C6: validation never rejects a bad scalar parameter — absent, zero or
negative values are silently replaced by a hardcoded fallback, the whole
call otherwise unchanged.  But the fallback pvi actually uses is 1 while
its docstring documents 13, and dpo's is 20 while its docstring documents
1; only t3's `a` fallback 0.7 matches its documentation. -/
theorem param_fallback_values :
    validLength none 1 = 1 ∧ validLength (some (-7)) 1 = 1 ∧ (1 : ℕ) ≠ 13 ∧
    validLength none 20 = 20 ∧ validLength (some 0) 20 = 20 ∧ (20 : ℕ) ≠ 1 ∧
    validA none = 7 / 10 ∧ validA (some 2) = 7 / 10 ∧
    pvi (some [some 1, some 2]) (some [some 3, some 4]) none none none none
      = pvi (some [some 1, some 2]) (some [some 3, some 4]) (some (-7)) none none none ∧
    dpo (some (List.replicate 20 (some 1))) none true none none none
      = dpo (some (List.replicate 20 (some 1))) (some 0) true none none none := by
  refine ⟨rfl, rfl, by decide, rfl, rfl, by decide, rfl, ?_, rfl, rfl⟩
  norm_num [validA]

/-- Packaging of C7: every indicator returns none when a required input
series is missing, and when the supplied series is shorter than the
indicator's validated minimum length. -/
def InvalidInputRejected (s t : Series) (length fast slow sig drift offset : Option ℤ)
    (a scalar fillna : Option ℚ) (talib asc : Option Bool) (centered : Bool)
    (lookahead : Option Bool) : Prop :=
  (vidya none length drift offset fillna = none ∧
   cmo none length scalar talib drift offset fillna = none ∧
   t3 none length a talib offset fillna = none ∧
   pgo none (some t) (some t) length offset fillna = none ∧
   fwma none length asc offset fillna = none ∧
   dpo none length centered lookahead offset fillna = none ∧
   pvi none (some t) length none offset fillna = none ∧
   smi none fast slow sig scalar offset fillna = none) ∧
  ((s.length < validLength length 14 →
      vidya (some s) length drift offset fillna = none) ∧
   (s.length < validLength length 14 →
      cmo (some s) length scalar talib drift offset fillna = none) ∧
   (s.length < validLength length 10 →
      t3 (some s) length a talib offset fillna = none) ∧
   (s.length < validLength length 14 →
      pgo (some s) (some t) (some t) length offset fillna = none) ∧
   (s.length < validLength length 10 →
      fwma (some s) length asc offset fillna = none) ∧
   (s.length < validLength length 20 →
      dpo (some s) length centered lookahead offset fillna = none) ∧
   (s.length < validLength length 1 →
      pvi (some s) (some t) length none offset fillna = none) ∧
   (s.length < max (validLength fast 5) (max (validLength slow 20) (validLength sig 5)) →
      smi (some s) fast slow sig scalar offset fillna = none))

/-- C7: a missing (null) required input series, or one shorter than the
required minimum length, makes every indicator return none; the embedding
is total, so no exception path exists. -/
theorem invalid_input_returns_none (s t : Series)
    (length fast slow sig drift offset : Option ℤ)
    (a scalar fillna : Option ℚ) (talib asc : Option Bool) (centered : Bool)
    (lookahead : Option Bool) :
    InvalidInputRejected s t length fast slow sig drift offset a scalar fillna
      talib asc centered lookahead := by
  constructor
  · exact ⟨rfl, rfl, rfl, rfl, rfl, rfl, rfl, rfl⟩
  · refine ⟨?_, ?_, ?_, ?_, ?_, ?_, ?_, ?_⟩
    · intro h; simp only [vidya, verify_series, if_pos h]
    · intro h; simp only [cmo, verify_series, if_pos h]
    · intro h; simp only [t3, verify_series, if_pos h]
    · intro h; simp only [pgo, verify_series, if_pos h]
    · intro h; simp only [fwma, verify_series, if_pos h]
    · intro h; simp only [dpo, verify_series, if_pos h]
    · intro h; simp only [pvi, verify_series, if_pos h]
    · intro h
      have hm : s.length <
          max (if validLength slow 20 < validLength fast 5 then validLength slow 20
               else validLength fast 5)
              (max (if validLength slow 20 < validLength fast 5 then validLength fast 5
                    else validLength slow 20) (validLength sig 5)) := by
        by_cases hc : validLength slow 20 < validLength fast 5
        · simp only [if_pos hc]
          omega
        · simp only [if_neg hc]
          omega
      simp only [smi, verify_series, if_pos hm]

theorem invalid_input_returns_none_witness :
    (InvalidInputRejected [] [some 1] none none none none none none none none none
       none none true none) ∧
    ([] : Series).length < validLength none 14 ∧
    vidya (some []) none none none none = none :=
  ⟨invalid_input_returns_none [] [some 1] none none none none none none none none
     none none none true none,
   by decide,
   (invalid_input_returns_none [] [some 1] none none none none none none none none
     none none none true none).2.1 (by decide)⟩

theorem smulScalar_length (c : ℚ) (s : Series) :
    (smulScalar c s).length = s.length := by simp [smulScalar]

theorem seriesDiff_length (d : ℕ) (s : Series) :
    (seriesDiff d s).length = s.length := by simp [seriesDiff]

theorem clipLower0_length (s : Series) : (clipLower0 s).length = s.length := by
  simp [clipLower0]

theorem clipUpper0Abs_length (s : Series) :
    (clipUpper0Abs s).length = s.length := by simp [clipUpper0Abs]

theorem mapOabs_length (s : Series) : (s.map oabs).length = s.length := by simp

theorem sval_map_none (g : Option ℚ → Option ℚ) (hg : g none = none)
    (s : Series) (i : ℕ) (h : sval s i = none) : sval (s.map g) i = none := by
  rcases Nat.lt_or_ge i s.length with him | him
  · rw [sval_map g s i him, h, hg]
  · exact sval_oob _ _ (by simpa using him)

theorem smulScalar_none (c : ℚ) (s : Series) (i : ℕ)
    (h : sval s i = none) : sval (smulScalar c s) i = none :=
  sval_map_none _ rfl s i h

theorem odiv_none_left (y : Option ℚ) : odiv none y = none := by cases y <;> rfl

theorem odiv_none_right (x : Option ℚ) : odiv x none = none := by cases x <;> rfl

theorem osub_none_left (y : Option ℚ) : osub none y = none := by cases y <;> rfl

theorem osub_none_right (x : Option ℚ) : osub x none = none := by cases x <;> rfl

theorem szip_none_left (f : Option ℚ → Option ℚ → Option ℚ)
    (hf : ∀ y, f none y = none) (s t : Series) (i : ℕ)
    (h : sval s i = none) : sval (szip f s t) i = none := by
  rcases Nat.lt_or_ge i s.length with hs | hs
  · rcases Nat.lt_or_ge i t.length with ht | ht
    · rw [sval_szip f s t i hs ht, h, hf]
    · exact sval_oob _ _ (by rw [szip_length]; omega)
  · exact sval_oob _ _ (by rw [szip_length]; omega)

theorem szip_none_right (f : Option ℚ → Option ℚ → Option ℚ)
    (hf : ∀ x, f x none = none) (s t : Series) (i : ℕ)
    (h : sval t i = none) : sval (szip f s t) i = none := by
  rcases Nat.lt_or_ge i s.length with hs | hs
  · rcases Nat.lt_or_ge i t.length with ht | ht
    · rw [sval_szip f s t i hs ht, h, hf]
    · exact sval_oob _ _ (by rw [szip_length]; omega)
  · exact sval_oob _ _ (by rw [szip_length]; omega)

theorem seriesDiff_early (d : ℕ) (s : Series) (i : ℕ) (h : i < d) :
    sval (seriesDiff d s) i = none := by
  rcases Nat.lt_or_ge i s.length with him | him
  · rw [seriesDiff, sval_range_map _ _ _ him, if_pos h]
  · exact sval_oob _ _ (by rw [seriesDiff_length]; omega)

theorem trueRange_length (high low close : Series) :
    (trueRange high low close).length = close.length := by simp [trueRange]

theorem trueRange_early (high low close : Series) (i : ℕ) (h : i = 0) :
    sval (trueRange high low close) i = none := by
  subst h
  rcases Nat.lt_or_ge 0 close.length with him | him
  · rw [trueRange, sval_range_map _ _ _ him, if_pos rfl]
  · exact sval_oob _ _ (by rw [trueRange_length]; omega)

theorem cmoCore_length (close : Series) (n d : ℕ) (sc : ℚ) (mt : Bool) :
    (cmoCore close n d sc mt).length = close.length := by
  cases mt <;>
    simp [cmoCore, szip_length, smulScalar_length, rmaSpec_length, rollingSum_length,
      clipLower0_length, clipUpper0Abs_length, seriesDiff_length]

theorem cmoCore_early (close : Series) (n d : ℕ) (sc : ℚ) (hn : 1 ≤ n)
    (i : ℕ) (hi : i + 1 < d + n) :
    sval (cmoCore close n d sc true) i = none := by
  have hpos : ∀ j, j < d → sval (clipLower0 (seriesDiff d close)) j = none := by
    intro j hj
    exact sval_map_none _ rfl _ _ (seriesDiff_early d close j hj)
  have hp : sval (rmaSpec n (clipLower0 (seriesDiff d close))) i = none :=
    rmaSpec_early n _ d hn hpos i hi
  show sval (szip odiv
      (smulScalar sc (szip osub (rmaSpec n (clipLower0 (seriesDiff d close)))
        (rmaSpec n (clipUpper0Abs (seriesDiff d close)))))
      (szip oadd (rmaSpec n (clipLower0 (seriesDiff d close)))
        (rmaSpec n (clipUpper0Abs (seriesDiff d close))))) i = none
  apply szip_none_left odiv odiv_none_left
  exact smulScalar_none _ _ _ (szip_none_left osub osub_none_left _ _ _ hp)

theorem dpoCore_length (close : Series) (n : ℕ) (c : Bool) :
    (dpoCore close n c).length = close.length := by
  cases c <;>
    simp [dpoCore, szip_length, shiftSeries_length, smaSpec_length, rollingSum_length]

theorem dpoCore_centered_early (close : Series) (n : ℕ) (i : ℕ)
    (hi : i + (n / 2 + 1) + 1 < n) :
    sval (dpoCore close n true) i = none := by
  rcases Nat.lt_or_ge i close.length with him | him
  · have hXlen : (szip osub (shiftSeries ((n / 2 + 1 : ℕ) : ℤ) close)
        (smaSpec n close)).length = close.length := by
      rw [szip_length, shiftSeries_length, smaSpec_length, min_self]
    show sval (shiftSeries (-((n / 2 + 1 : ℕ) : ℤ))
      (szip osub (shiftSeries ((n / 2 + 1 : ℕ) : ℤ) close) (smaSpec n close))) i = none
    rw [sval_shift _ _ i (by rw [hXlen]; omega), hXlen]
    by_cases hc : (0 : ℤ) ≤ (i : ℤ) - -((n / 2 + 1 : ℕ) : ℤ) ∧
        (i : ℤ) - -((n / 2 + 1 : ℕ) : ℤ) < (close.length : ℤ)
    · rw [if_pos hc]
      have hidx : ((i : ℤ) - -((n / 2 + 1 : ℕ) : ℤ)).toNat = i + (n / 2 + 1) := by
        omega
      rw [hidx]
      apply szip_none_right osub osub_none_right
      have hlt : i + (n / 2 + 1) < close.length := by omega
      rw [sval_smaSpec n close _ hlt, if_pos (by omega)]
      rfl
    · rw [if_neg hc]
  · exact sval_oob _ _ (by rw [dpoCore_length]; omega)

theorem t3Core_length (close : Series) (n : ℕ) (a : ℚ) :
    (t3Core close n a).length = close.length := by
  simp [t3Core, szip_length, smulScalar_length, emaSpec_length]

set_option maxHeartbeats 1000000 in
theorem t3Core_early (close : Series) (n : ℕ) (a : ℚ) (hn : 1 ≤ n) (i : ℕ)
    (hi : i < 6 * (n - 1)) : sval (t3Core close n a) i = none := by
  have h1 : ∀ j, j < 1 * (n - 1) → sval (emaSpec n close) j = none := by
    intro j hj
    exact emaSpec_early n close 0 hn (fun l hl => absurd hl (by omega)) j (by omega)
  have h2 : ∀ j, j < 2 * (n - 1) → sval (emaSpec n (emaSpec n close)) j = none := by
    intro j hj
    exact emaSpec_early n _ (n - 1) hn (fun l hl => h1 l (by omega)) j (by omega)
  have h3 : ∀ j, j < 3 * (n - 1) →
      sval (emaSpec n (emaSpec n (emaSpec n close))) j = none := by
    intro j hj
    exact emaSpec_early n _ (2 * (n - 1)) hn (fun l hl => h2 l (by omega)) j (by omega)
  have h4 : ∀ j, j < 4 * (n - 1) →
      sval (emaSpec n (emaSpec n (emaSpec n (emaSpec n close)))) j = none := by
    intro j hj
    exact emaSpec_early n _ (3 * (n - 1)) hn (fun l hl => h3 l (by omega)) j (by omega)
  have h5 : ∀ j, j < 5 * (n - 1) →
      sval (emaSpec n (emaSpec n (emaSpec n (emaSpec n (emaSpec n close))))) j
        = none := by
    intro j hj
    exact emaSpec_early n _ (4 * (n - 1)) hn (fun l hl => h4 l (by omega)) j (by omega)
  have h6 : sval (emaSpec n (emaSpec n (emaSpec n (emaSpec n
      (emaSpec n (emaSpec n close)))))) i = none :=
    emaSpec_early n _ (5 * (n - 1)) hn (fun l hl => h5 l (by omega)) i (by omega)
  show sval (szip oadd (szip oadd (szip oadd
      (smulScalar (-a * a ^ 2) (emaSpec n (emaSpec n (emaSpec n (emaSpec n
        (emaSpec n (emaSpec n close)))))))
      (smulScalar (3 * a ^ 2 + 3 * a ^ 3) (emaSpec n (emaSpec n (emaSpec n
        (emaSpec n (emaSpec n close)))))))
      (smulScalar (-6 * a ^ 2 - 3 * a - 3 * a ^ 3) (emaSpec n (emaSpec n
        (emaSpec n (emaSpec n close))))))
      (smulScalar (a ^ 3 + 3 * a ^ 2 + 3 * a + 1) (emaSpec n (emaSpec n
        (emaSpec n close))))) i = none
  apply szip_none_left oadd oadd_none_left
  apply szip_none_left oadd oadd_none_left
  apply szip_none_left oadd oadd_none_left
  exact smulScalar_none _ _ _ h6

theorem pgoCore_length (high low close : Series) (n : ℕ) :
    (pgoCore high low close n).length = close.length := by
  simp [pgoCore, szip_length, smaSpec_length, rollingSum_length, emaSpec_length,
    atrSpec, rmaSpec_length, trueRange_length]

theorem pgoCore_early (high low close : Series) (n : ℕ) (hn : 1 ≤ n) (i : ℕ)
    (hi : i + 1 < 2 * n) : sval (pgoCore high low close n) i = none := by
  have htr : ∀ j, j < 1 → sval (trueRange high low close) j = none := by
    intro j hj
    exact trueRange_early high low close j (by omega)
  have hatr : ∀ j, j < n → sval (atrSpec high low close n) j = none := by
    intro j hj
    exact rmaSpec_early n _ 1 hn htr j (by omega)
  have hden : sval (emaSpec n (atrSpec high low close n)) i = none :=
    emaSpec_early n _ n hn hatr i (by omega)
  exact szip_none_right odiv odiv_none_right _ _ i hden

theorem tsiLine_early (close : Series) (fast slow sig : ℕ) (sc : ℚ)
    (hf : 1 ≤ fast) (hs : 1 ≤ slow) (i : ℕ) (hi : i + 1 < fast + slow) :
    sval (tsiSpec close fast slow sig sc).1 i = none := by
  have hd : ∀ j, j < 1 → sval (seriesDiff 1 close) j = none := by
    intro j hj
    exact seriesDiff_early 1 close j hj
  have hes : ∀ j, j < slow → sval (emaSpec slow (seriesDiff 1 close)) j = none :=
    fun j hj => emaSpec_early slow _ 1 hs hd j (by omega)
  have hnum : sval (emaSpec fast (emaSpec slow (seriesDiff 1 close))) i = none :=
    emaSpec_early fast _ slow hf hes i (by omega)
  show sval (szip odiv
      (smulScalar sc (emaSpec fast (emaSpec slow (seriesDiff 1 close))))
      (emaSpec fast (emaSpec slow ((seriesDiff 1 close).map oabs)))) i = none
  exact szip_none_left odiv odiv_none_left _ _ i (smulScalar_none _ _ _ hnum)

theorem tsiSignal_early (close : Series) (fast slow sig : ℕ) (sc : ℚ)
    (hf : 1 ≤ fast) (hs : 1 ≤ slow) (hg : 1 ≤ sig) (i : ℕ)
    (hi : i + 1 < fast + slow - 1 + sig) :
    sval (tsiSpec close fast slow sig sc).2 i = none := by
  have hline : ∀ j, j < fast + slow - 1 →
      sval (tsiSpec close fast slow sig sc).1 j = none :=
    fun j hj => tsiLine_early close fast slow sig sc hf hs j (by omega)
  show sval (emaSpec sig (tsiSpec close fast slow sig sc).1) i = none
  exact emaSpec_early sig _ (fast + slow - 1) hg hline i (by omega)

theorem tsiLine_length (close : Series) (fast slow sig : ℕ) (sc : ℚ) :
    (tsiSpec close fast slow sig sc).1.length = close.length := by
  show (szip odiv
      (smulScalar sc (emaSpec fast (emaSpec slow (seriesDiff 1 close))))
      (emaSpec fast (emaSpec slow ((seriesDiff 1 close).map oabs)))).length
    = close.length
  simp [szip_length, smulScalar_length, emaSpec_length, seriesDiff_length]

theorem tsiSignal_length (close : Series) (fast slow sig : ℕ) (sc : ℚ) :
    (tsiSpec close fast slow sig sc).2.length = close.length := by
  show (emaSpec sig (tsiSpec close fast slow sig sc).1).length = close.length
  rw [emaSpec_length, tsiLine_length]

theorem fwmaCore_length (close : Series) (n : ℕ) :
    (fwmaCore close n).length = close.length := by simp [fwmaCore]

theorem fwmaCore_early (close : Series) (n : ℕ) (i : ℕ) (hi : i + 1 < n) :
    sval (fwmaCore close n) i = none := by
  rcases Nat.lt_or_ge i close.length with him | him
  · simp only [fwmaCore]
    rw [sval_range_map _ _ _ him, if_pos hi]
  · exact sval_oob _ _ (by rw [fwmaCore_length]; omega)

theorem vidyaCore_early (close : Series) (n d : ℕ) (i : ℕ) (hi : i < n) :
    sval (vidyaCore close n d) i = none := by
  rcases Nat.lt_or_ge i close.length with him | him
  · rw [show vidyaCore close n d = replaceZeroNan (vidyaScan close n d) from rfl,
      sval_replaceZeroNan _ _ (by rw [vidyaScan_length]; omega),
      vidyaScan_sval close n d i him, vidyaVal_early _ _ _ _ _ hi]
    simp
  · exact sval_oob _ _ (by rw [vidyaCore_length]; omega)

theorem cumsumFrom_length (acc : ℚ) (l : List ℚ) :
    (cumsumFrom acc l).length = l.length := by
  induction l generalizing acc with
  | nil => rfl
  | cons x xs ih => simp [cumsumFrom, ih]

theorem setHead_length (v : ℚ) (l : List ℚ) :
    (setHead v l).length = l.length := by
  cases l <;> rfl

theorem pviCore_length (close volume : Series) (n : ℕ) (ini : ℚ) :
    (pviCore close volume n ini).length = close.length := by
  simp only [pviCore]
  rw [List.length_map, cumsumFrom_length, setHead_length, List.length_map]
  simp

theorem postProcess_default (s : Series) :
    postProcess (getOffset none) none s = s := rfl

/-- Alignment contract of one output series: same length as the input and
null at every position strictly before the indicator's first computable
position. -/
def OutputAligned (input out : Series) (minBar : ℕ) : Prop :=
  out.length = input.length ∧ ∀ i, i < minBar → sval out i = none

/-- Packaging of C3 at default parameters, no offset and no fill, for all
eight indicators: each call succeeds, preserves the input length, and is
null strictly before its minimum lookback position (cmo 14, pgo 27,
smi 24/28/28, fwma 9, t3 54, vidya 14, dpo 8, pvi 0). -/
def DefaultLookbacks (close high low volume : Series) : Prop :=
  (∃ o, cmo (some close) none none none none none none = some o ∧
     OutputAligned close o 14) ∧
  (∃ o, pgo (some high) (some low) (some close) none none none = some o ∧
     OutputAligned close o 27) ∧
  (∃ a b c, smi (some close) none none none none none none = some (a, b, c) ∧
     OutputAligned close a 24 ∧ OutputAligned close b 28 ∧ OutputAligned close c 28) ∧
  (∃ o, fwma (some close) none none none none = some o ∧
     OutputAligned close o 9) ∧
  (∃ o, t3 (some close) none none none none none = some o ∧
     OutputAligned close o 54) ∧
  (∃ o, vidya (some close) none none none none = some o ∧
     OutputAligned close o 14) ∧
  (∃ o, dpo (some close) none true none none none = some o ∧
     OutputAligned close o 8) ∧
  (∃ o, pvi (some close) (some volume) none none none none = some o ∧
     OutputAligned close o 0)

/-- C3: every indicator called with valid inputs and default parameters
(no offset, no fill) returns series of the input's length whose positions
strictly before the indicator's minimum lookback are null. -/
theorem output_length_and_lookback (close high low volume : Series)
    (hm : 20 ≤ close.length) (hh : high.length = close.length)
    (hl : low.length = close.length) (hv : volume.length = close.length) :
    DefaultLookbacks close high low volume := by
  have hcv14 : verify_series (some close) 14 = some close := by
    simp only [verify_series]
    rw [if_neg (by omega)]
  have hcv20 : verify_series (some close) 20 = some close := by
    simp only [verify_series]
    rw [if_neg (by omega)]
  have hcv10 : verify_series (some close) 10 = some close := by
    simp only [verify_series]
    rw [if_neg (by omega)]
  have hcv1 : verify_series (some close) 1 = some close := by
    simp only [verify_series]
    rw [if_neg (by omega)]
  have hvv1 : verify_series (some volume) 1 = some volume := by
    simp only [verify_series]
    rw [if_neg (by omega)]
  have hhv14 : verify_series (some high) 14 = some high := by
    simp only [verify_series]
    rw [if_neg (by omega)]
  have hlv14 : verify_series (some low) 14 = some low := by
    simp only [verify_series]
    rw [if_neg (by omega)]
  refine ⟨?_, ?_, ?_, ?_, ?_, ?_, ?_, ?_⟩
  · refine ⟨cmoCore close 14 1 100 true, ?_, cmoCore_length close 14 1 100 true, ?_⟩
    · simp only [cmo, validLength, validScalar, getDrift, Option.getD_none,
        hcv14, postProcess_default]
    · intro i hi
      exact cmoCore_early close 14 1 100 (by norm_num) i (by omega)
  · refine ⟨pgoCore high low close 14, ?_, ?_, ?_⟩
    · simp only [pgo, validLength, hhv14, hlv14, hcv14, postProcess_default]
    · exact pgoCore_length high low close 14
    · intro i hi
      exact pgoCore_early high low close 14 (by norm_num) i (by omega)
  · refine ⟨(smiCore close 5 20 5 1).1, (smiCore close 5 20 5 1).2.1,
      (smiCore close 5 20 5 1).2.2, ?_, ⟨?_, ?_⟩, ⟨?_, ?_⟩, ⟨?_, ?_⟩⟩
    · simp only [smi, validLength, validScalar, postProcess_default]
      rw [show (if (20 : ℕ) < 5 then (20 : ℕ) else 5) = 5 from rfl,
        show (if (20 : ℕ) < 5 then (5 : ℕ) else 20) = 20 from rfl,
        show ((5 : ℕ) ⊔ ((20 : ℕ) ⊔ 5)) = 20 from rfl, hcv20]
    · exact tsiLine_length close 5 20 5 1
    · intro i hi
      exact tsiLine_early close 5 20 5 1 (by norm_num) (by norm_num) i (by omega)
    · exact tsiSignal_length close 5 20 5 1
    · intro i hi
      exact tsiSignal_early close 5 20 5 1 (by norm_num) (by norm_num)
        (by norm_num) i (by omega)
    · show (szip osub (tsiSpec close 5 20 5 1).1 (tsiSpec close 5 20 5 1).2).length
        = close.length
      rw [szip_length, tsiLine_length, tsiSignal_length, min_self]
    · intro i hi
      show sval (szip osub (tsiSpec close 5 20 5 1).1 (tsiSpec close 5 20 5 1).2) i
        = none
      exact szip_none_right osub osub_none_right _ _ i
        (tsiSignal_early close 5 20 5 1 (by norm_num) (by norm_num)
          (by norm_num) i (by omega))
  · refine ⟨fwmaCore close 10, ?_, fwmaCore_length close 10, ?_⟩
    · simp only [fwma, validLength, hcv10, postProcess_default]
    · intro i hi
      exact fwmaCore_early close 10 i (by omega)
  · refine ⟨t3Core close 10 (7 / 10), ?_, t3Core_length close 10 (7 / 10), ?_⟩
    · simp only [t3, validLength, validA, hcv10, postProcess_default]
    · intro i hi
      exact t3Core_early close 10 (7 / 10) (by norm_num) i (by omega)
  · refine ⟨vidyaCore close 14 1, ?_, vidyaCore_length close 14 1, ?_⟩
    · simp only [vidya, validLength, getDrift, hcv14, postProcess_default]
    · intro i hi
      exact vidyaCore_early close 14 1 i hi
  · refine ⟨dpoCore close 20 true, ?_, dpoCore_length close 20 true, ?_⟩
    · simp only [dpo, validLength, hcv20, postProcess_default]
      rfl
    · intro i hi
      exact dpoCore_centered_early close 20 i (by omega)
  · refine ⟨pviCore close volume 1 1000, ?_, pviCore_length close volume 1 1000, ?_⟩
    · simp only [pvi, validLength, hcv1, hvv1, postProcess_default]
    · intro i hi
      exact absurd hi (Nat.not_lt_zero i)

theorem output_length_and_lookback_witness :
    (20 ≤ (List.replicate 20 (some 1) : Series).length ∧
     (List.replicate 20 (some 1) : Series).length
        = (List.replicate 20 (some 1) : Series).length) ∧
    DefaultLookbacks (List.replicate 20 (some 1)) (List.replicate 20 (some 1))
      (List.replicate 20 (some 1)) (List.replicate 20 (some 1)) :=
  ⟨⟨by decide, rfl⟩,
   output_length_and_lookback (List.replicate 20 (some 1))
     (List.replicate 20 (some 1)) (List.replicate 20 (some 1))
     (List.replicate 20 (some 1)) (by decide) rfl rfl rfl⟩
